import Mathlib

/-!
Verification of the hershey-parser repository (src/src/lib.rs) against its
natural-language specification.

Modelling conventions:
- A Rust `&str` is modelled as `List Char`; `str::len` is modelled as the
  number of characters, which agrees with the byte length on ASCII input
  (the Hershey format is ASCII).  Byte slicing `&s[i..j]` is modelled with
  `List.drop`/`List.take`.
- Rust `i32` values are modelled as `Int`.  The only i32 arithmetic the code
  performs (`char as i32 - 'R' as i32`, `total - 1`, `min`/`max`) cannot
  overflow i32 for values arising from the code, so no i32 wrap is modelled.
- Rust `usize` casts and arithmetic are modelled with release-mode wrapping
  semantics, i.e. arithmetic modulo 2^64: `(total - 1) as usize` is the
  Euclidean remainder mod 2^64, `5 + num_pairs * 2` and the subtraction
  `(glyph as usize) - 32` wrap mod 2^64.
- Fallible Rust functions returning `Result` are modelled with `Except`.
-/

/-- `Edge` from the source: an integer point `(x, y)`. -/
structure Edge where
  x : Int
  y : Int
deriving DecidableEq, Repr

/-- `HersheyGlyph` from the source. -/
structure HersheyGlyph where
  top : Int
  right : Int
  bottom : Int
  left : Int
  paths : List (List Edge)
deriving DecidableEq, Repr

/-- `HersheyFont` from the source. -/
structure HersheyFont where
  top : Int
  right : Int
  bottom : Int
  left : Int
  glyphs : List HersheyGlyph
deriving DecidableEq, Repr

/-- Errors produced by `line_to_hershey_glyph`: `anyhow!("Invalid glyph data")`
and the `?`-propagated `ParseIntError` from `parse::<i32>()`. -/
inductive GlyphError where
  | invalidGlyphData
  | intParseError
deriving DecidableEq, Repr

/-- `HersheyFontNewError` from the source: `ParseError(boxed cause, message)`. -/
inductive FontError where
  | parseError (cause : GlyphError) (msg : String)
deriving DecidableEq, Repr

/-- `HersheyFontGetGlyphError` from the source: `GlyphNotFound(message)`. -/
inductive GetGlyphError where
  | glyphNotFound (msg : String)
deriving DecidableEq, Repr

/-- `char_to_int` from the source: `(*char as i32) - ('R' as i32)`. -/
def char_to_int (c : Char) : Int :=
  (c.toNat : Int) - ('R'.toNat : Int)

/-- 2^64, the modulus of Rust `usize` arithmetic on a 64-bit target. -/
def USIZE : Nat := 18446744073709551616

/-- The `as usize` cast of an i32 value: sign extension reinterpreted,
i.e. the Euclidean remainder mod 2^64. -/
def i32_to_usize (v : Int) : Nat := (v % (USIZE : Int)).toNat

/-- Rust `char::is_whitespace` (the Unicode White_Space property),
used by `str::trim`. -/
def is_rust_whitespace (c : Char) : Bool :=
  c.toNat == 9 || c.toNat == 10 || c.toNat == 11 || c.toNat == 12 ||
  c.toNat == 13 || c.toNat == 32 || c.toNat == 133 || c.toNat == 160 ||
  c.toNat == 5760 || (8192 ≤ c.toNat && c.toNat ≤ 8202) ||
  c.toNat == 8232 || c.toNat == 8233 || c.toNat == 8239 ||
  c.toNat == 8287 || c.toNat == 12288

/-- Rust `str::trim`: strip leading and trailing whitespace. -/
def trim (s : List Char) : List Char :=
  ((s.dropWhile is_rust_whitespace).reverse.dropWhile is_rust_whitespace).reverse

/-- ASCII digit test, as used by `i32::from_str`. -/
def is_ascii_digit (c : Char) : Bool :=
  48 ≤ c.toNat && c.toNat ≤ 57

/-- The numeric value accumulated from a run of ASCII digits. -/
def digits_to_nat (l : List Char) : Nat :=
  l.foldl (fun a c => a * 10 + (c.toNat - 48)) 0

/-- Rust `str::parse::<i32>` (`i32::from_str`): an optional single leading
`+`/`-` sign followed by one or more ASCII digits, rejecting the empty
string, non-digit characters and values out of i32 range. -/
def parse_i32 (s : List Char) : Option Int :=
  match s with
  | [] => none
  | c :: rest =>
    let digits := if c = '+' || c = '-' then rest else s
    if digits.isEmpty then none
    else if digits.all is_ascii_digit then
      let mag := digits_to_nat digits
      if c = '-' then
        if mag ≤ 2147483648 then some (-(mag : Int)) else none
      else
        if mag ≤ 2147483647 then some (mag : Int) else none
    else none

/-- Accumulator of the pair loop in `line_to_hershey_glyph`:
the running `top`/`bottom` extrema, the closed `paths`, and the
in-progress `path`. -/
structure GlyphAcc where
  top : Int
  bottom : Int
  paths : List (List Edge)
  path : List Edge
deriving DecidableEq, Repr

/-- One iteration of the pair loop in `line_to_hershey_glyph`, acting on the
two characters of the current window: if the window is `" R"` and the
in-progress path is non-empty, the path is closed; otherwise the window is
decoded as a point, the extrema are updated and the point is appended. -/
def pair_step (c0 c1 : Char) (s : GlyphAcc) : GlyphAcc :=
  if c0 = ' ' ∧ c1 = 'R' ∧ s.path ≠ [] then
    { s with paths := s.paths ++ [s.path], path := [] }
  else
    { s with
      top := min s.top (char_to_int c1)
      bottom := max s.bottom (char_to_int c1)
      path := s.path ++ [Edge.mk (char_to_int c0) (char_to_int c1)] }

/-- The pair loop of `line_to_hershey_glyph`: `for i in 0..num_pairs`,
reading the window `contents[5 + 2*i .. 7 + 2*i]`, starting from
`top = i32::MAX`, `bottom = i32::MIN` and empty paths.  The default
character of `getD` is never used: the loop runs only after the length
check guarantees every index is in bounds. -/
def run_pairs (contents : List Char) (n : Nat) : GlyphAcc :=
  (List.range n).foldl
    (fun s i => pair_step (contents.getD (5 + 2 * i) 'A') (contents.getD (6 + 2 * i) 'A') s)
    ⟨2147483647, -2147483648, [], []⟩

/-- `line_to_hershey_glyph` from the source. -/
def line_to_hershey_glyph (line : List Char) : Except GlyphError HersheyGlyph :=
  if line.length < 10 then .error .invalidGlyphData
  else
    let contents := line.drop 5
    match parse_i32 (trim (contents.take 3)) with
    | none => .error .intParseError
    | some total_pairs =>
      let num_pairs : Nat := i32_to_usize (total_pairs - 1)
      let left := char_to_int (contents.getD 3 'A')
      let right := char_to_int (contents.getD 4 'A')
      if contents.length ≠ (5 + num_pairs * 2) % USIZE then .error .invalidGlyphData
      else
        let acc := run_pairs contents num_pairs
        let acc2 := if acc.path ≠ [] then { acc with paths := acc.paths ++ [acc.path] } else acc
        .ok ⟨acc2.top, right, acc2.bottom, left, acc2.paths⟩

/-- Rust `str::split('\n')`: splits on each newline, keeping empty segments;
the empty string yields one empty segment. -/
def split_newline : List Char → List (List Char)
  | [] => [[]]
  | c :: rest =>
    if c = '\n' then [] :: split_newline rest
    else
      match split_newline rest with
      | [] => [[c]]
      | l :: ls => (c :: l) :: ls

/-- The `map`/`collect` stage of `HersheyFont::new` over the enumerated,
non-empty lines: decode each line, stopping at the first failure and
wrapping its error with the 1-based line number message. -/
def decode_lines : List (Nat × List Char) → Except FontError (List HersheyGlyph)
  | [] => .ok []
  | (i, line) :: rest =>
    match line_to_hershey_glyph line with
    | .error e => .error (.parseError e ("Error parsing line " ++ Nat.repr (i + 1)))
    | .ok g =>
      match decode_lines rest with
      | .error e => .error e
      | .ok gs => .ok (g :: gs)

/-- The flattened point iterator of `HersheyFont::new`:
`glyphs.iter().flat_map(|glyph| glyph.paths.clone()).flatten()`. -/
def font_points (glyphs : List HersheyGlyph) : List Edge :=
  ((glyphs.map HersheyGlyph.paths).flatten).flatten

/-- One step of the bounding-box fold in `HersheyFont::new`, on the
accumulator `(top, right, bottom, left)`. -/
def box_step (acc : Int × Int × Int × Int) (e : Edge) : Int × Int × Int × Int :=
  (min acc.1 e.y, max acc.2.1 e.x, max acc.2.2.1 e.y, min acc.2.2.2 e.x)

/-- `HersheyFont::new` from the source. -/
def HersheyFont.new (data : List Char) : Except FontError HersheyFont :=
  match decode_lines (((split_newline data).enum).filter (fun p => !p.2.isEmpty)) with
  | .error e => .error e
  | .ok glyphs =>
    let box := (font_points glyphs).foldl box_step
      (2147483647, -2147483648, -2147483648, 2147483647)
    .ok ⟨box.1, box.2.1, box.2.2.1, box.2.2.2, glyphs⟩

/-- The wrapping usize subtraction `a - b` (release semantics), for `b ≤ 2^64`. -/
def usize_sub (a b : Nat) : Nat := (a + (USIZE - b)) % USIZE

/-- `HersheyFont::get_glyph` from the source: index `(glyph as usize) - 32`
into the glyph table, `GlyphNotFound` when out of bounds. -/
def HersheyFont.get_glyph (f : HersheyFont) (c : Char) : Except GetGlyphError HersheyGlyph :=
  match f.glyphs.get? (usize_sub c.toNat 32) with
  | some g => .ok g
  | none => .error (.glyphNotFound ("Glyph " ++ c.toString ++ " not found in font"))

/-- C1: Decoding the single line `"  720  3G][BIb"` succeeds and returns a
glyph with `top = -16`, `bottom = 16`, `left = -11`, `right = 11`, and
exactly one path containing exactly the two points `(9, -16)` and `(-9, 16)`
in that order. -/
theorem c1_decode_example_line :
    line_to_hershey_glyph ("  720  3G][BIb".toList) =
      Except.ok ⟨-16, 11, 16, -11, [[Edge.mk 9 (-16), Edge.mk (-9) 16]]⟩ := by
  rfl

/-- Range of any value produced by `parse_i32`: it fits in i32. -/
theorem parse_i32_range (s : List Char) (v : Int) (h : parse_i32 s = some v) :
    -2147483648 ≤ v ∧ v ≤ 2147483647 := by
  unfold parse_i32 at h
  match s with
  | [] => simp at h
  | c :: rest =>
    simp only at h
    split_ifs at h <;> injection h with hv <;> omega

/-- Evaluation of `line_to_hershey_glyph` for a long-enough line whose count
field parses: the result is determined by the fixed-width length check and
the pair loop. -/
theorem decode_eq_of_parse (line : List Char) (v : Int)
    (hlen : ¬ line.length < 10)
    (hp : parse_i32 (trim ((line.drop 5).take 3)) = some v) :
    line_to_hershey_glyph line =
      (if (line.drop 5).length ≠ (5 + i32_to_usize (v - 1) * 2) % USIZE
       then Except.error GlyphError.invalidGlyphData
       else
        let contents := line.drop 5
        let acc := run_pairs contents (i32_to_usize (v - 1))
        let acc2 := if acc.path ≠ [] then { acc with paths := acc.paths ++ [acc.path] } else acc
        Except.ok ⟨acc2.top, char_to_int (contents.getD 4 'A'), acc2.bottom,
          char_to_int (contents.getD 3 'A'), acc2.paths⟩) := by
  unfold line_to_hershey_glyph
  rw [if_neg hlen]
  simp only [hp]

/-- Evaluation of `line_to_hershey_glyph` when the count field fails to parse. -/
theorem decode_eq_of_parse_fail (line : List Char)
    (hlen : ¬ line.length < 10)
    (hp : parse_i32 (trim ((line.drop 5).take 3)) = none) :
    line_to_hershey_glyph line = Except.error GlyphError.intParseError := by
  unfold line_to_hershey_glyph
  rw [if_neg hlen]
  simp only [hp]

/-- Evaluation of `line_to_hershey_glyph` on a short line. -/
theorem decode_eq_of_short (line : List Char) (hlen : line.length < 10) :
    line_to_hershey_glyph line = Except.error GlyphError.invalidGlyphData := by
  unfold line_to_hershey_glyph
  rw [if_pos hlen]

/-- C7: `char_to_int` is the pure total function `(character code) − 82`:
it maps 'R' to 0, 'M' to -5, 'W' to 5, 'Q' to -1, and is strictly monotonic
in character code. -/
theorem c7_char_to_int_spec :
    char_to_int 'R' = 0 ∧ char_to_int 'M' = -5 ∧ char_to_int 'W' = 5 ∧
    char_to_int 'Q' = -1 ∧
    ∀ c d : Char, c.toNat < d.toNat → char_to_int c < char_to_int d := by
  refine ⟨rfl, rfl, rfl, rfl, ?_⟩
  intro c d h
  unfold char_to_int
  omega

/-- Witness for C7 at the concrete pair 'A' < 'B'. -/
theorem c7_witness : 'A'.toNat < 'B'.toNat ∧ char_to_int 'A' < char_to_int 'B' :=
  ⟨by decide, c7_char_to_int_spec.2.2.2.2 'A' 'B' (by decide)⟩

/-- C2 counterexample: parsing the empty string does NOT fail; it returns a
font with zero glyphs and the sentinel bounding box. -/
theorem c2_counterexample :
    HersheyFont.new ("".toList) =
      Except.ok ⟨2147483647, -2147483648, -2147483648, 2147483647, []⟩ := by
  rfl

/-- Auxiliary for C2: enumerating-and-filtering a list of empty lines leaves
nothing. -/
theorem filter_enumFrom_all_empty (ls : List (List Char)) (n : Nat)
    (h : ∀ l ∈ ls, l = []) :
    (ls.enumFrom n).filter (fun p => !p.2.isEmpty) = [] := by
  induction ls generalizing n with
  | nil => rfl
  | cons hd tl ih =>
    have hhd : hd = [] := h hd (List.mem_cons_self hd tl)
    simp only [List.enumFrom, List.filter, hhd]
    exact ih (n + 1) (fun l hl => h l (List.mem_cons_of_mem hd hl))

/-- C2 amended: parsing any input whose newline split contains no non-empty
lines (in particular the empty string) succeeds and returns a font with an
empty glyph sequence and the sentinel bounding box; it does not fail. -/
theorem c2_no_nonempty_lines_ok (data : List Char)
    (h : ∀ l ∈ split_newline data, l = []) :
    HersheyFont.new data =
      Except.ok ⟨2147483647, -2147483648, -2147483648, 2147483647, []⟩ := by
  unfold HersheyFont.new
  rw [show (split_newline data).enum = (split_newline data).enumFrom 0 from rfl]
  rw [filter_enumFrom_all_empty _ 0 h]
  rfl

/-- Witness for C2's amended theorem at the concrete input `"\n"`. -/
theorem c2_witness :
    HersheyFont.new ("\n".toList) =
      Except.ok ⟨2147483647, -2147483648, -2147483648, 2147483647, []⟩ :=
  c2_no_nonempty_lines_ok ("\n".toList) (by decide)

/-- C10: a line of length at least 10 whose trimmed count field parses to an
integer ≤ 0 always errors: the wrapped `(count − 1) as usize` makes the
fixed-width length check fail for every realistic line length. -/
theorem c10_nonpositive_count_errors (line : List Char) (v : Int)
    (hlen : 10 ≤ line.length) (hbound : line.length < 2 ^ 63)
    (hp : parse_i32 (trim ((line.drop 5).take 3)) = some v) (hv : v ≤ 0) :
    line_to_hershey_glyph line = Except.error GlyphError.invalidGlyphData := by
  have hrange := parse_i32_range _ _ hp
  rw [decode_eq_of_parse line v (by omega) hp]
  rw [if_pos ?_]
  simp only [List.length_drop, i32_to_usize, USIZE]
  omega

/-- Witness for C10 at the concrete line `"00000  0RR"` (count field `0`). -/
theorem c10_witness :
    10 ≤ ("00000  0RR".toList).length ∧
    ("00000  0RR".toList).length < 2 ^ 63 ∧
    parse_i32 (trim ((("00000  0RR".toList).drop 5).take 3)) = some 0 ∧
    line_to_hershey_glyph ("00000  0RR".toList) =
      Except.error GlyphError.invalidGlyphData :=
  ⟨by decide, by decide, by decide,
    c10_nonpositive_count_errors ("00000  0RR".toList) 0 (by decide) (by decide)
      (by decide) (by decide)⟩

/-- The pair-loop step as the SPEC words it (for comparison with `pair_step`,
which is translated from the source): a `" R"` window seen while the
in-progress stroke is empty is silently ignored. -/
def pair_step_specIgnore (c0 c1 : Char) (s : GlyphAcc) : GlyphAcc :=
  if c0 = ' ' ∧ c1 = 'R' then
    if s.path ≠ [] then { s with paths := s.paths ++ [s.path], path := [] } else s
  else
    { s with
      top := min s.top (char_to_int c1)
      bottom := max s.bottom (char_to_int c1)
      path := s.path ++ [Edge.mk (char_to_int c0) (char_to_int c1)] }

/-- The pair loop using the SPEC's marker handling. -/
def run_pairs_specIgnore (contents : List Char) (n : Nat) : GlyphAcc :=
  (List.range n).foldl
    (fun s i =>
      pair_step_specIgnore (contents.getD (5 + 2 * i) 'A') (contents.getD (6 + 2 * i) 'A') s)
    ⟨2147483647, -2147483648, [], []⟩

/-- The glyph-line decoder as the SPEC words the `" R"` marker handling;
identical to `line_to_hershey_glyph` except for `run_pairs_specIgnore`. -/
def line_to_hershey_glyph_specIgnore (line : List Char) : Except GlyphError HersheyGlyph :=
  if line.length < 10 then .error .invalidGlyphData
  else
    let contents := line.drop 5
    match parse_i32 (trim (contents.take 3)) with
    | none => .error .intParseError
    | some total_pairs =>
      let num_pairs : Nat := i32_to_usize (total_pairs - 1)
      let left := char_to_int (contents.getD 3 'A')
      let right := char_to_int (contents.getD 4 'A')
      if contents.length ≠ (5 + num_pairs * 2) % USIZE then .error .invalidGlyphData
      else
        let acc := run_pairs_specIgnore contents num_pairs
        let acc2 := if acc.path ≠ [] then { acc with paths := acc.paths ++ [acc.path] } else acc
        .ok ⟨acc2.top, right, acc2.bottom, left, acc2.paths⟩

/-- C6 counterexample: on the line `"00000  3RR RAB"` the first window is
`" R"` while the stroke is still empty.  The source decoder does NOT ignore
it: it decodes it as the point `(-50, 0)` (so the resulting path and the
`top`/`bottom` extrema include it), whereas the decoder following the spec's
words would ignore the marker and keep only the point `(-17, -16)`. -/
theorem c6_counterexample :
    line_to_hershey_glyph ("00000  3RR RAB".toList) =
      Except.ok ⟨-16, 0, 0, 0, [[Edge.mk (-50) 0, Edge.mk (-17) (-16)]]⟩ ∧
    line_to_hershey_glyph_specIgnore ("00000  3RR RAB".toList) =
      Except.ok ⟨-16, 0, -16, 0, [[Edge.mk (-17) (-16)]]⟩ := by
  constructor <;> rfl

/-- `pair_step` keeps the closed-paths invariant: it never appends an empty
path. -/
theorem pair_step_paths_nonempty (c0 c1 : Char) (s : GlyphAcc)
    (h : ∀ p ∈ s.paths, p ≠ []) : ∀ p ∈ (pair_step c0 c1 s).paths, p ≠ [] := by
  unfold pair_step
  split_ifs with hc
  · intro p hp
    rcases List.mem_append.mp hp with hp | hp
    · exact h p hp
    · rw [List.mem_singleton.mp hp]
      exact hc.2.2
  · exact h

/-- The pair loop keeps the closed-paths invariant from any starting
accumulator that has it. -/
theorem foldl_pair_step_paths_nonempty (contents : List Char) (l : List Nat)
    (init : GlyphAcc) (h : ∀ p ∈ init.paths, p ≠ []) :
    ∀ p ∈ (l.foldl
      (fun s i => pair_step (contents.getD (5 + 2 * i) 'A') (contents.getD (6 + 2 * i) 'A') s)
      init).paths, p ≠ [] := by
  induction l generalizing init with
  | nil => exact h
  | cons hd tl ih => exact ih _ (pair_step_paths_nonempty _ _ _ h)

/-- The pair loop starts with no closed paths, so its closed paths are all
non-empty. -/
theorem run_pairs_paths_nonempty (contents : List Char) (n : Nat) :
    ∀ p ∈ (run_pairs contents n).paths, p ≠ [] :=
  foldl_pair_step_paths_nonempty contents (List.range n) _ (by simp)

/-- C6 amended: every path stored in an accepted glyph is non-empty — a
`" R"` window closes the current stroke only when that stroke is non-empty,
and a non-empty in-progress stroke remaining after the loop is appended as a
final path — but a `" R"` window seen while the stroke is empty is NOT
ignored: it is decoded as the ordinary point `(-50, 0)` and appended to the
stroke. -/
theorem c6_paths_nonempty (line : List Char) (g : HersheyGlyph)
    (h : line_to_hershey_glyph line = Except.ok g) :
    (∀ p ∈ g.paths, p ≠ []) ∧
    (∀ s : GlyphAcc, s.path = [] →
      pair_step ' ' 'R' s =
        { s with top := min s.top 0, bottom := max s.bottom 0,
                 path := [Edge.mk (-50) 0] }) := by
  constructor
  · by_cases hl : line.length < 10
    · rw [decode_eq_of_short line hl] at h
      exact absurd h (by simp)
    · cases hp : parse_i32 (trim ((line.drop 5).take 3)) with
      | none =>
        rw [decode_eq_of_parse_fail line hl hp] at h
        exact absurd h (by simp)
      | some v =>
        rw [decode_eq_of_parse line v hl hp] at h
        split at h
        · exact absurd h (by simp)
        · simp only [Except.ok.injEq] at h
          subst h
          simp only
          split_ifs with hne
          · intro p hp2
            rcases List.mem_append.mp hp2 with hp2 | hp2
            · exact run_pairs_paths_nonempty _ _ p hp2
            · rw [List.mem_singleton.mp hp2]
              exact hne
          · exact run_pairs_paths_nonempty _ _
  · intro s hs
    unfold pair_step
    rw [if_neg (by simp [hs])]
    have h0 : char_to_int ' ' = -50 := by decide
    have h1 : char_to_int 'R' = 0 := by decide
    rw [h0, h1, hs]
    rfl

/-- Witness for C6's amended theorem at the line of C1 and its only path. -/
theorem c6_witness : [Edge.mk 9 (-16), Edge.mk (-9) 16] ≠ [] :=
  (c6_paths_nonempty ("  720  3G][BIb".toList)
      ⟨-16, 11, 16, -11, [[Edge.mk 9 (-16), Edge.mk (-9) 16]]⟩ (by rfl)).1
    [Edge.mk 9 (-16), Edge.mk (-9) 16] (by simp)

/-- C3: glyph lookup returns `GlyphNotFound` exactly when `(code of c) − 32`
is negative or at least the number of glyphs, and otherwise returns the
glyph stored at that index.  For codes below 32 the wrapping usize
subtraction produces an index of at least 2^64 − 32, which is out of bounds
for every realistic glyph table (the hypothesis bounds the table by 2^63,
the Rust allocation limit), so lookup returns `GlyphNotFound` rather than a
glyph. -/
theorem c3_get_glyph_spec (f : HersheyFont) (c : Char)
    (hn : f.glyphs.length < 2 ^ 63) :
    (f.get_glyph c =
        Except.error (.glyphNotFound ("Glyph " ++ c.toString ++ " not found in font")) ↔
      ((c.toNat : Int) - 32 < 0 ∨ (f.glyphs.length : Int) ≤ (c.toNat : Int) - 32)) ∧
    (∀ i : Nat, (i : Int) = (c.toNat : Int) - 32 →
      ∀ g, f.glyphs.get? i = some g → f.get_glyph c = Except.ok g) := by
  have hc : c.toNat < 2 ^ 32 := c.val.toNat_lt
  unfold HersheyFont.get_glyph usize_sub USIZE
  by_cases h32 : 32 ≤ c.toNat
  · have hidx : (c.toNat + (18446744073709551616 - 32)) % 18446744073709551616 =
        c.toNat - 32 := by omega
    rw [hidx]
    cases hg : f.glyphs.get? (c.toNat - 32) with
    | none =>
      have hlen : f.glyphs.length ≤ c.toNat - 32 := List.get?_eq_none.mp hg
      refine ⟨⟨fun _ => Or.inr (by omega), fun _ => rfl⟩, ?_⟩
      intro i hi g hig
      have hieq : i = c.toNat - 32 := by omega
      rw [hieq, hg] at hig
      exact absurd hig (by simp)
    | some g0 =>
      have hlen : c.toNat - 32 < f.glyphs.length := (List.get?_eq_some.mp hg).1
      refine ⟨⟨fun habs => absurd habs (by simp), fun habs => absurd habs (by omega)⟩, ?_⟩
      intro i hi g hig
      have hieq : i = c.toNat - 32 := by omega
      rw [hieq, hg, Option.some.injEq] at hig
      rw [hig]
  · have hidx : (c.toNat + (18446744073709551616 - 32)) % 18446744073709551616 =
        c.toNat + 18446744073709551616 - 32 := by omega
    rw [hidx]
    have hg : f.glyphs.get? (c.toNat + 18446744073709551616 - 32) = none :=
      List.get?_eq_none.mpr (by omega)
    rw [hg]
    refine ⟨⟨fun _ => Or.inl (by omega), fun _ => rfl⟩, ?_⟩
    intro i hi g hig
    omega

/-- Witness for C3: the one-glyph font parsed from the line of C1; lookup of
' ' (index 0) succeeds with that glyph, lookup of 'A' (index 33) fails. -/
theorem c3_witness :
    ([⟨-16, 11, 16, -11, [[Edge.mk 9 (-16), Edge.mk (-9) 16]]⟩] :
        List HersheyGlyph).length < 2 ^ 63 ∧
    HersheyFont.get_glyph
        ⟨-16, 11, 16, -11, [⟨-16, 11, 16, -11, [[Edge.mk 9 (-16), Edge.mk (-9) 16]]⟩]⟩ 'A' =
      Except.error (.glyphNotFound ("Glyph " ++ 'A'.toString ++ " not found in font")) :=
  ⟨by norm_num,
    ((c3_get_glyph_spec
        ⟨-16, 11, 16, -11, [⟨-16, 11, 16, -11, [[Edge.mk 9 (-16), Edge.mk (-9) 16]]⟩]⟩ 'A'
        (by norm_num)).1).mpr (Or.inr (by decide))⟩

/-- Trimming never lengthens a string. -/
theorem trim_length_le (s : List Char) : (trim s).length ≤ s.length := by
  unfold trim
  rw [List.length_reverse]
  calc ((s.dropWhile is_rust_whitespace).reverse.dropWhile is_rust_whitespace).length
      ≤ (s.dropWhile is_rust_whitespace).reverse.length :=
        (List.dropWhile_sublist is_rust_whitespace).length_le
    _ = (s.dropWhile is_rust_whitespace).length := List.length_reverse _
    _ ≤ s.length := (List.dropWhile_sublist is_rust_whitespace).length_le

/-- The digit fold is bounded: from accumulator `a`, a run of `n` digits
reaches less than `(a + 1) * 10 ^ n`. -/
theorem digits_foldl_lt (l : List Char) (a : Nat) (h : l.all is_ascii_digit) :
    l.foldl (fun a c => a * 10 + (c.toNat - 48)) a < (a + 1) * 10 ^ l.length := by
  induction l generalizing a with
  | nil => simp
  | cons c tl ih =>
    rw [List.all_cons, Bool.and_eq_true] at h
    have hd : c.toNat - 48 ≤ 9 := by
      have := h.1
      unfold is_ascii_digit at this
      rw [Bool.and_eq_true, decide_eq_true_eq, decide_eq_true_eq] at this
      omega
    calc (c :: tl).foldl (fun a c => a * 10 + (c.toNat - 48)) a
        = tl.foldl (fun a c => a * 10 + (c.toNat - 48)) (a * 10 + (c.toNat - 48)) := rfl
      _ < (a * 10 + (c.toNat - 48) + 1) * 10 ^ tl.length := ih _ h.2
      _ ≤ ((a + 1) * 10) * 10 ^ tl.length := by
          apply Nat.mul_le_mul_right
          omega
      _ = (a + 1) * 10 ^ (c :: tl).length := by
          rw [List.length_cons, pow_succ]
          ring

/-- The value of a digit run is bounded by `10 ^ length`. -/
theorem digits_to_nat_lt (l : List Char) (h : l.all is_ascii_digit) :
    digits_to_nat l < 10 ^ l.length := by
  have hb := digits_foldl_lt l 0 h
  rw [zero_add, one_mul] at hb
  exact hb

/-- A value parsed from a field of at most 3 characters lies in [-99, 999]. -/
theorem parse_i32_small (s : List Char) (v : Int)
    (hlen : s.length ≤ 3) (h : parse_i32 s = some v) : -99 ≤ v ∧ v ≤ 999 := by
  unfold parse_i32 at h
  match s, hlen with
  | [], _ => simp at h
  | c :: rest, hlen =>
    simp only at h
    rw [List.length_cons] at hlen
    split_ifs at h <;> injection h with hv <;> first
    | (have hb := digits_to_nat_lt rest (by assumption)
       have hpow : (10 : Nat) ^ rest.length ≤ 100 := by
         calc (10 : Nat) ^ rest.length ≤ 10 ^ 2 :=
              Nat.pow_le_pow_right (by norm_num) (by omega)
           _ = 100 := by norm_num
       omega)
    | (have hb := digits_to_nat_lt (c :: rest) (by assumption)
       have hpow : (10 : Nat) ^ (c :: rest).length ≤ 1000 := by
         calc (10 : Nat) ^ (c :: rest).length ≤ 10 ^ 3 :=
              Nat.pow_le_pow_right (by norm_num) (by rw [List.length_cons]; omega)
           _ = 1000 := by norm_num
       omega)
    | (exfalso; simp_all)

/-- The fixed-width length check of the source (with the wrapping usize cast
and arithmetic) agrees with the spec's integer reading of
`content length = 5 + (count − 1) * 2` for every realistic line length and
every count a 3-character field can produce. -/
theorem length_check_iff (len : Nat) (v : Int)
    (h10 : 10 ≤ len) (hb : len < 2 ^ 63) (hv1 : -99 ≤ v) (hv2 : v ≤ 999) :
    (len - 5 = (5 + i32_to_usize (v - 1) * 2) % USIZE ↔
      ((len : Int) - 5) = 5 + (v - 1) * 2) := by
  simp only [i32_to_usize, USIZE]
  omega

/-- C4: the glyph-line decoder errors exactly when the line is shorter than
10 characters, or the trimmed 3-character count field fails to parse as an
integer, or the content length (line length minus 5) differs from
`5 + (count − 1) * 2`; on every other line it returns a glyph.  The realistic
bound on the line length reflects Rust's allocation limit. -/
theorem c4_decode_error_iff (line : List Char) (hbound : line.length < 2 ^ 63) :
    (∃ e, line_to_hershey_glyph line = Except.error e) ↔
      (line.length < 10 ∨
       parse_i32 (trim ((line.drop 5).take 3)) = none ∨
       (∃ v, parse_i32 (trim ((line.drop 5).take 3)) = some v ∧
         ((line.length : Int) - 5) ≠ 5 + (v - 1) * 2)) := by
  by_cases hl : line.length < 10
  · exact iff_of_true ⟨_, decode_eq_of_short line hl⟩ (Or.inl hl)
  · cases hp : parse_i32 (trim ((line.drop 5).take 3)) with
    | none =>
      exact iff_of_true ⟨_, decode_eq_of_parse_fail line hl hp⟩ (Or.inr (Or.inl rfl))
    | some v =>
      have htake : ((line.drop 5).take 3).length ≤ 3 := by
        rw [List.length_take]
        exact min_le_left _ _
      have hv := parse_i32_small _ v (le_trans (trim_length_le _) htake) hp
      have hchk := length_check_iff line.length v (by omega) hbound hv.1 hv.2
      rw [decode_eq_of_parse line v hl hp]
      by_cases hne : (line.drop 5).length ≠ (5 + i32_to_usize (v - 1) * 2) % USIZE
      · rw [if_pos hne]
        rw [List.length_drop] at hne
        exact iff_of_true ⟨_, rfl⟩
          (Or.inr (Or.inr ⟨v, rfl, fun habs => hne (hchk.mpr habs)⟩))
      · rw [if_neg hne]
        rw [not_not, List.length_drop] at hne
        refine iff_of_false ?_ ?_
        · rintro ⟨e, he⟩
          simp at he
        · rintro (h | h | ⟨w, hw, hwne⟩)
          · exact hl h
          · exact absurd h (by simp)
          · rw [Option.some.injEq] at hw
            subst hw
            exact hwne (hchk.mp hne)

/-- Witness for C4 at the concrete 3-character line `"abc"` (too short). -/
theorem c4_witness :
    ("abc".toList).length < 2 ^ 63 ∧
    ∃ e, line_to_hershey_glyph ("abc".toList) = Except.error e :=
  ⟨by norm_num, (c4_decode_error_iff ("abc".toList) (by norm_num)).mpr (Or.inl (by decide))⟩

/-- Indexing with a default commutes with `drop`. -/
theorem getD_drop (l : List Char) (n i : Nat) (d : Char) :
    (l.drop n).getD i d = l.getD (n + i) d := by
  induction l generalizing n with
  | nil => simp
  | cons x xs ih =>
    cases n with
    | zero => simp
    | succ m =>
      rw [List.drop_succ_cons, ih m, Nat.succ_add, List.getD_cons_succ]

/-- The count fields of two lines that agree away from content offsets 3 and
4 are equal. -/
theorem take3_drop5_eq (l1 l2 : List Char) (hlen : l1.length = l2.length)
    (hsame : ∀ i : Nat, i ≠ 8 → i ≠ 9 → l1.getD i 'A' = l2.getD i 'A') :
    (l1.drop 5).take 3 = (l2.drop 5).take 3 := by
  apply List.ext_getElem
  · simp [hlen]
  · intro i hi1 hi2
    rw [List.length_take, List.length_drop] at hi1
    have hib : i < 3 := lt_of_lt_of_le hi1 (min_le_left _ _)
    have h5 : 5 + i < l1.length := by omega
    rw [List.getElem_take, List.getElem_drop, List.getElem_take, List.getElem_drop]
    rw [← List.getD_eq_getElem l1 'A' (by omega), ← List.getD_eq_getElem l2 'A' (by omega)]
    exact hsame (5 + i) (by omega) (by omega)

/-- Unrolling the last iteration of the pair loop. -/
theorem run_pairs_succ (c : List Char) (m : Nat) :
    run_pairs c (m + 1) =
      pair_step (c.getD (5 + 2 * m) 'A') (c.getD (6 + 2 * m) 'A') (run_pairs c m) := by
  unfold run_pairs
  rw [List.range_succ, List.foldl_append]
  rfl

/-- The pair loop only looks at the windows it reads: two content strings
agreeing on every window position produce the same accumulator. -/
theorem run_pairs_congr (c1 c2 : List Char) (n : Nat)
    (h : ∀ i : Nat, c1.getD (5 + 2 * i) 'A' = c2.getD (5 + 2 * i) 'A' ∧
         c1.getD (6 + 2 * i) 'A' = c2.getD (6 + 2 * i) 'A') :
    run_pairs c1 n = run_pairs c2 n := by
  induction n with
  | zero => rfl
  | succ m ih =>
    rw [run_pairs_succ, run_pairs_succ, ih, (h m).1, (h m).2]

/-- C8: the header left/right characters never contribute a path vertex: two
successfully decoded lines that differ only at content offsets 3 and 4 (line
offsets 8 and 9) yield glyphs with identical paths, top and bottom. -/
theorem c8_header_pair_independent (l1 l2 : List Char) (g1 g2 : HersheyGlyph)
    (hlen : l1.length = l2.length)
    (hsame : ∀ i : Nat, i ≠ 8 → i ≠ 9 → l1.getD i 'A' = l2.getD i 'A')
    (h1 : line_to_hershey_glyph l1 = Except.ok g1)
    (h2 : line_to_hershey_glyph l2 = Except.ok g2) :
    g1.paths = g2.paths ∧ g1.top = g2.top ∧ g1.bottom = g2.bottom := by
  by_cases hl : l1.length < 10
  · rw [decode_eq_of_short l1 hl] at h1
    exact absurd h1 (by simp)
  · have hl2 : ¬ l2.length < 10 := by omega
    cases hp : parse_i32 (trim ((l1.drop 5).take 3)) with
    | none =>
      rw [decode_eq_of_parse_fail l1 hl hp] at h1
      exact absurd h1 (by simp)
    | some v =>
      have htake : (l1.drop 5).take 3 = (l2.drop 5).take 3 := take3_drop5_eq l1 l2 hlen hsame
      have hp2 : parse_i32 (trim ((l2.drop 5).take 3)) = some v := by
        rw [← htake]
        exact hp
      rw [decode_eq_of_parse l1 v hl hp] at h1
      rw [decode_eq_of_parse l2 v hl2 hp2] at h2
      have hrp : run_pairs (l1.drop 5) (i32_to_usize (v - 1)) =
          run_pairs (l2.drop 5) (i32_to_usize (v - 1)) := by
        apply run_pairs_congr
        intro i
        rw [getD_drop, getD_drop, getD_drop, getD_drop]
        exact ⟨hsame (5 + (5 + 2 * i)) (by omega) (by omega),
               hsame (5 + (6 + 2 * i)) (by omega) (by omega)⟩
      by_cases hchk : (l1.drop 5).length ≠ (5 + i32_to_usize (v - 1) * 2) % USIZE
      · rw [if_pos hchk] at h1
        exact absurd h1 (by simp)
      · rw [if_neg hchk] at h1
        have hchk2 : ¬ (l2.drop 5).length ≠ (5 + i32_to_usize (v - 1) * 2) % USIZE := by
          rw [List.length_drop] at hchk ⊢
          omega
        rw [if_neg hchk2] at h2
        simp only [Except.ok.injEq] at h1 h2
        subst h1
        subst h2
        rw [hrp]
        exact ⟨rfl, rfl, rfl⟩

/-- Witness for C8 at the lines `"  720  3G][BIb"` and `"  720  3RR[BIb"`
(content offsets 3 and 4 changed from `G]` to `RR`). -/
theorem c8_witness :
    ("  720  3G][BIb".toList).length = ("  720  3RR[BIb".toList).length ∧
    [[Edge.mk 9 (-16), Edge.mk (-9) 16]] = [[Edge.mk 9 (-16), Edge.mk (-9) 16]] ∧
    (-16 : Int) = -16 ∧ (16 : Int) = 16 :=
  ⟨by decide,
    c8_header_pair_independent ("  720  3G][BIb".toList) ("  720  3RR[BIb".toList)
      ⟨-16, 11, 16, -11, [[Edge.mk 9 (-16), Edge.mk (-9) 16]]⟩
      ⟨-16, 0, 16, 0, [[Edge.mk 9 (-16), Edge.mk (-9) 16]]⟩
      (by decide)
      (by
        intro i h8 h9
        rcases i with _|_|_|_|_|_|_|_|_|_|_|_|_|_|n
        all_goals first
        | rfl
        | exact absurd rfl h8
        | exact absurd rfl h9)
      (by rfl) (by rfl)⟩

/-- The font-wide `top` as the SPEC words it: fold `min` over the y of every
point in every path of every glyph, seeded with the `+∞` sentinel. -/
def spec_font_top (glyphs : List HersheyGlyph) : Int :=
  ((font_points glyphs).map Edge.y).foldl min 2147483647

/-- The font-wide `right` as the SPEC words it: fold `max` over x, seeded
with the `−∞` sentinel. -/
def spec_font_right (glyphs : List HersheyGlyph) : Int :=
  ((font_points glyphs).map Edge.x).foldl max (-2147483648)

/-- The font-wide `bottom` as the SPEC words it: fold `max` over y, seeded
with the `−∞` sentinel. -/
def spec_font_bottom (glyphs : List HersheyGlyph) : Int :=
  ((font_points glyphs).map Edge.y).foldl max (-2147483648)

/-- The font-wide `left` as the SPEC words it: fold `min` over x, seeded
with the `+∞` sentinel. -/
def spec_font_left (glyphs : List HersheyGlyph) : Int :=
  ((font_points glyphs).map Edge.x).foldl min 2147483647

/-- The single tuple fold of the source equals the four per-component folds
of the spec. -/
theorem box_fold_eq (pts : List Edge) (t r b l : Int) :
    pts.foldl box_step (t, r, b, l) =
      ((pts.map Edge.y).foldl min t, (pts.map Edge.x).foldl max r,
       (pts.map Edge.y).foldl max b, (pts.map Edge.x).foldl min l) := by
  induction pts generalizing t r b l with
  | nil => rfl
  | cons e rest ih =>
    simp only [List.foldl_cons, List.map_cons, box_step]
    exact ih _ _ _ _

/-- C5: for every successfully parsed font, the font-level top, right,
bottom, left equal the min/max folds over every point in every path of
every glyph from the sentinel seeds; with no points at all the four fields
stay at the sentinels. -/
theorem c5_font_box (data : List Char) (font : HersheyFont)
    (h : HersheyFont.new data = Except.ok font) :
    (font.top = spec_font_top font.glyphs ∧
     font.right = spec_font_right font.glyphs ∧
     font.bottom = spec_font_bottom font.glyphs ∧
     font.left = spec_font_left font.glyphs) ∧
    (font_points font.glyphs = [] →
      font.top = 2147483647 ∧ font.right = -2147483648 ∧
      font.bottom = -2147483648 ∧ font.left = 2147483647) := by
  unfold HersheyFont.new at h
  split at h
  · exact absurd h (by simp)
  · rename_i glyphs hdec
    simp only [Except.ok.injEq] at h
    subst h
    simp only [box_fold_eq]
    refine ⟨⟨rfl, rfl, rfl, rfl⟩, ?_⟩
    intro hnone
    rw [hnone]
    exact ⟨rfl, rfl, rfl, rfl⟩

/-- Witness for C5 at a synthetic two-glyph font. -/
theorem c5_witness :
    ((-16 : Int) = spec_font_top
        [⟨-16, 11, 16, -11, [[Edge.mk 9 (-16), Edge.mk (-9) 16]]⟩,
         ⟨-16, 11, 16, -11, [[Edge.mk 9 (-16), Edge.mk (-9) 16]]⟩] ∧
     (9 : Int) = spec_font_right
        [⟨-16, 11, 16, -11, [[Edge.mk 9 (-16), Edge.mk (-9) 16]]⟩,
         ⟨-16, 11, 16, -11, [[Edge.mk 9 (-16), Edge.mk (-9) 16]]⟩] ∧
     (16 : Int) = spec_font_bottom
        [⟨-16, 11, 16, -11, [[Edge.mk 9 (-16), Edge.mk (-9) 16]]⟩,
         ⟨-16, 11, 16, -11, [[Edge.mk 9 (-16), Edge.mk (-9) 16]]⟩] ∧
     (-9 : Int) = spec_font_left
        [⟨-16, 11, 16, -11, [[Edge.mk 9 (-16), Edge.mk (-9) 16]]⟩,
         ⟨-16, 11, 16, -11, [[Edge.mk 9 (-16), Edge.mk (-9) 16]]⟩]) ∧
    (font_points
        [⟨-16, 11, 16, -11, [[Edge.mk 9 (-16), Edge.mk (-9) 16]]⟩,
         ⟨-16, 11, 16, -11, [[Edge.mk 9 (-16), Edge.mk (-9) 16]]⟩] = [] →
      (-16 : Int) = 2147483647 ∧ (9 : Int) = -2147483648 ∧
      (16 : Int) = -2147483648 ∧ (-9 : Int) = 2147483647) :=
  c5_font_box ("  720  3G][BIb\n  720  3G][BIb".toList)
    ⟨-16, 9, 16, -9,
      [⟨-16, 11, 16, -11, [[Edge.mk 9 (-16), Edge.mk (-9) 16]]⟩,
       ⟨-16, 11, 16, -11, [[Edge.mk 9 (-16), Edge.mk (-9) 16]]⟩]⟩ (by rfl)

/-- An empty line is discarded by the filter stage of `HersheyFont::new`. -/
theorem filter_enumFrom_cons_empty (n : Nat) (tl : List (List Char)) :
    (List.enumFrom n ([] :: tl)).filter (fun p => !p.2.isEmpty) =
      (List.enumFrom (n + 1) tl).filter (fun p => !p.2.isEmpty) := by
  rw [show List.enumFrom n ([] :: tl) = (n, ([] : List Char)) :: List.enumFrom (n + 1) tl
    from rfl]
  rw [List.filter_cons]
  simp

/-- A non-empty line is kept by the filter stage, paired with its 0-based
position in the unfiltered split. -/
theorem filter_enumFrom_cons_nonempty (n : Nat) (hd : List Char) (h : hd ≠ [])
    (tl : List (List Char)) :
    (List.enumFrom n (hd :: tl)).filter (fun p => !p.2.isEmpty) =
      (n, hd) :: (List.enumFrom (n + 1) tl).filter (fun p => !p.2.isEmpty) := by
  rw [show List.enumFrom n (hd :: tl) = (n, hd) :: List.enumFrom (n + 1) tl from rfl]
  rw [List.filter_cons]
  simp [h]

/-- The decode stage stops at the first failing non-empty line and reports
its 1-based position in the unfiltered split (offset by the enumeration
start `n`). -/
theorem decode_lines_first_failure (ls : List (List Char)) (n k : Nat)
    (line : List Char) (e : GlyphError)
    (hk : ls.get? k = some line) (hne : line ≠ [])
    (herr : line_to_hershey_glyph line = Except.error e)
    (hbefore : ∀ j, j < k → ∀ lj, ls.get? j = some lj → lj ≠ [] →
      ∃ g, line_to_hershey_glyph lj = Except.ok g) :
    decode_lines ((ls.enumFrom n).filter (fun p => !p.2.isEmpty)) =
      Except.error (FontError.parseError e ("Error parsing line " ++ Nat.repr (n + k + 1))) := by
  induction ls generalizing n k with
  | nil => simp at hk
  | cons hd tl ih =>
    cases k with
    | zero =>
      rw [show (hd :: tl).get? 0 = some hd from rfl, Option.some.injEq] at hk
      subst hk
      rw [filter_enumFrom_cons_nonempty n hd hne tl]
      unfold decode_lines
      rw [herr]
    | succ m =>
      by_cases hhd : hd = []
      · subst hhd
        rw [filter_enumFrom_cons_empty n tl]
        rw [show n + (m + 1) + 1 = (n + 1) + m + 1 by omega]
        exact ih (n + 1) m hk
          (fun j hj lj hlj hnej => hbefore (j + 1) (by omega) lj hlj hnej)
      · obtain ⟨g, hg⟩ := hbefore 0 (Nat.succ_pos m) hd rfl hhd
        rw [filter_enumFrom_cons_nonempty n hd hhd tl]
        unfold decode_lines
        rw [hg]
        rw [ih (n + 1) m hk
          (fun j hj lj hlj hnej => hbefore (j + 1) (by omega) lj hlj hnej)]
        rw [show n + (m + 1) + 1 = (n + 1) + m + 1 by omega]

/-- C9: when some line fails to decode, font parsing stops at the first
failing non-empty line and returns a `ParseError` wrapping the underlying
decode error, with a message giving the line's 1-based position in the
original unfiltered newline split (empty lines are skipped but keep their
positions, so reported numbers have holes where empty lines were). -/
theorem c9_first_failure (data : List Char) (k : Nat) (line : List Char) (e : GlyphError)
    (hk : (split_newline data).get? k = some line)
    (hne : line ≠ [])
    (herr : line_to_hershey_glyph line = Except.error e)
    (hbefore : ∀ j, j < k → ∀ lj, (split_newline data).get? j = some lj → lj ≠ [] →
      ∃ g, line_to_hershey_glyph lj = Except.ok g) :
    HersheyFont.new data =
      Except.error (FontError.parseError e ("Error parsing line " ++ Nat.repr (k + 1))) := by
  unfold HersheyFont.new
  rw [show (split_newline data).enum = (split_newline data).enumFrom 0 from rfl]
  rw [decode_lines_first_failure (split_newline data) 0 k line e hk hne herr hbefore]
  rw [Nat.zero_add]

/-- Witness for C9 at `"  720  3G][BIb\n\nxx"`: the failing line `"xx"` sits
at 0-based split position 2 (after a good line and an empty line), so the
message reports line 3. -/
theorem c9_witness :
    HersheyFont.new ("  720  3G][BIb\n\nxx".toList) =
      Except.error (FontError.parseError GlyphError.invalidGlyphData
        ("Error parsing line " ++ Nat.repr 3)) :=
  c9_first_failure ("  720  3G][BIb\n\nxx".toList) 2 ("xx".toList)
    GlyphError.invalidGlyphData (by rfl) (by decide) (by rfl)
    (by
      intro j hj lj hlj hnej
      rcases j with _|_|j
      · rw [show (split_newline ("  720  3G][BIb\n\nxx".toList)).get? 0 =
            some ("  720  3G][BIb".toList) from rfl, Option.some.injEq] at hlj
        subst hlj
        exact ⟨⟨-16, 11, 16, -11, [[Edge.mk 9 (-16), Edge.mk (-9) 16]]⟩, by rfl⟩
      · rw [show (split_newline ("  720  3G][BIb\n\nxx".toList)).get? 1 =
            some [] from rfl, Option.some.injEq] at hlj
        subst hlj
        exact absurd rfl hnej
      · omega)
